import Mathlib

/-!
Verification development for the `works_on_work` static site generator
(`build.js`).  The script reads JSON content files, sorts posts by date,
injects serialized JSON into placeholder tokens of an HTML template via
JavaScript `String.prototype.replace`, and writes the result (plus copied
assets and an optional CNAME file) into a cleaned `dist/` directory.

The embedding works over `List Char` for all string manipulation, with
`String` wrappers at the interfaces.  JSON values parsed by `JSON.parse`
are modelled by the mutual inductive `Json`; file contents are modelled at
the `JSON.parse` boundary as `Except String Json` (parse error message or
parsed value), since `JSON.parse` is a Node builtin, not repository code.
-/

namespace WorksOnWork

mutual
/-- JSON values as produced by `JSON.parse`: `null`, booleans, numbers
(restricted to integers, which is all the content files use), strings,
arrays and objects.  Arrays and objects are mutual inductives (rather than
nested `List`s) so that all recursions below are structural.  Objects model
post-`JSON.parse` JavaScript objects, whose keys are unique. -/
inductive Json where
  | null : Json
  | boolean : Bool → Json
  | num : Int → Json
  | str : String → Json
  | arr : JsonArr → Json
  | obj : JsonObj → Json

/-- A JSON array (sequence of `Json` values). -/
inductive JsonArr where
  | nil : JsonArr
  | cons : Json → JsonArr → JsonArr

/-- A JSON object (sequence of key/value members). -/
inductive JsonObj where
  | nil : JsonObj
  | cons : String → Json → JsonObj → JsonObj
end

/-- Convert a Lean list of JSON values to a `JsonArr`. -/
def JsonArr.ofList : List Json → JsonArr
  | [] => JsonArr.nil
  | x :: xs => JsonArr.cons x (JsonArr.ofList xs)

/-- Property lookup `o[k]` on a parsed JSON value: only objects have own
data properties named by content keys; any other value yields `undefined`
(modelled as `none`). -/
def objLookup : JsonObj → String → Option Json
  | JsonObj.nil, _ => none
  | JsonObj.cons k v rest, key => if k == key then some v else objLookup rest key

/-- `j.k` property access, `none` for JavaScript `undefined`. -/
def getField (j : Json) (key : String) : Option Json :=
  match j with
  | Json.obj ms => objLookup ms key
  | _ => none

/-- JavaScript truthiness of a parsed JSON value: `null`, `false`, `0` and
`""` are falsy; every other JSON value (including `[]` and objects) is
truthy. -/
def truthy : Json → Bool
  | Json.null => false
  | Json.boolean b => b
  | Json.num i => !(i == 0)
  | Json.str s => !(s == "")
  | Json.arr _ => true
  | Json.obj _ => true

mutual
/-- JavaScript `String(v)` coercion of a parsed JSON value: `null` prints
as `"null"`, booleans and integers in the usual way, arrays join their
elements with commas (with `null` elements rendered empty, per
`Array.prototype.join`), plain objects print as `[object Object]`. -/
def jsToString : Json → String
  | Json.null => "null"
  | Json.boolean b => if b then "true" else "false"
  | Json.num i => Int.repr i
  | Json.str s => s
  | Json.arr es => String.mk (arrJoin es)
  | Json.obj _ => "[object Object]"

/-- `Array.prototype.join` with the default `,` separator; `null`
elements render as the empty string. -/
def arrJoin : JsonArr → List Char
  | JsonArr.nil => []
  | JsonArr.cons Json.null JsonArr.nil => []
  | JsonArr.cons x JsonArr.nil => (jsToString x).data
  | JsonArr.cons Json.null (JsonArr.cons y rest) =>
    ',' :: arrJoin (JsonArr.cons y rest)
  | JsonArr.cons x (JsonArr.cons y rest) =>
    (jsToString x).data ++ ',' :: arrJoin (JsonArr.cons y rest)
end

/-- `JSON.stringify` escaping of one string character: quote, backslash
and the named control characters get two-character escapes, other control
characters get a `\u00XX` escape, anything else is passed through. -/
def escapeChar (c : Char) : List Char :=
  if c = '"' then ['\\', '"']
  else if c = '\\' then ['\\', '\\']
  else if c = '\n' then ['\\', 'n']
  else if c = '\r' then ['\\', 'r']
  else if c = '\t' then ['\\', 't']
  else if c = Char.ofNat 8 then ['\\', 'b']
  else if c = Char.ofNat 12 then ['\\', 'f']
  else if c.toNat < 32 then
    ['\\', 'u', '0', '0', Nat.digitChar (c.toNat / 16), Nat.digitChar (c.toNat % 16)]
  else [c]

/-- `JSON.stringify` escaping of a whole string body. -/
def escapeL : List Char → List Char
  | [] => []
  | c :: cs => escapeChar c ++ escapeL cs

/-- A JSON string literal: quote, escaped body, quote. -/
def jsonQuote (s : String) : List Char :=
  '"' :: (escapeL s.data ++ ['"'])

/-- The two-space gap of `JSON.stringify(v, null, 2)`. -/
def jsonGap : List Char := [' ', ' ']

mutual
/-- `JSON.stringify(v, null, 2)` at the current indentation `ind`:
scalars print inline; non-empty arrays and objects open a line, indent
each element by `ind ++ jsonGap`, separate elements with `,\n`, and close
on a fresh line at indentation `ind`. -/
def stringifyVal (ind : List Char) : Json → List Char
  | Json.null => "null".data
  | Json.boolean b => if b then "true".data else "false".data
  | Json.num i => (Int.repr i).data
  | Json.str s => jsonQuote s
  | Json.arr JsonArr.nil => "[]".data
  | Json.arr (JsonArr.cons x rest) =>
    "[\n".data ++ (ind ++ jsonGap) ++ stringifyVal (ind ++ jsonGap) x ++
      arrTail (ind ++ jsonGap) rest ++ "\n".data ++ ind ++ "]".data
  | Json.obj JsonObj.nil => "\x7b\x7d".data
  | Json.obj (JsonObj.cons k v rest) =>
    "\x7b\n".data ++ (ind ++ jsonGap) ++ (jsonQuote k ++ ": ".data) ++
      stringifyVal (ind ++ jsonGap) v ++
      objTail (ind ++ jsonGap) rest ++ "\n".data ++ ind ++ "\x7d".data

/-- The remaining elements of a non-empty array, each preceded by `,\n`
and the element indentation. -/
def arrTail (ind : List Char) : JsonArr → List Char
  | JsonArr.nil => []
  | JsonArr.cons x rest =>
    ",\n".data ++ ind ++ stringifyVal ind x ++ arrTail ind rest

/-- The remaining members of a non-empty object, each preceded by `,\n`
and the member indentation. -/
def objTail (ind : List Char) : JsonObj → List Char
  | JsonObj.nil => []
  | JsonObj.cons k v rest =>
    ",\n".data ++ ind ++ (jsonQuote k ++ ": ".data) ++ stringifyVal ind v ++
      objTail ind rest
end

/-- `JSON.stringify(j, null, 2)` as used by `injectData`. -/
def stringify (j : Json) : String := String.mk (stringifyVal [] j)

/-- Boolean test that `pat` starts the list `s`. -/
def isPre : List Char → List Char → Bool
  | [], _ => true
  | _ :: _, [] => false
  | a :: as, b :: bs => a == b && isPre as bs

/-- Boolean test that `pat` ends the list `s` (for `f.endsWith` in
`readPosts`). -/
def endsWithL (s pat : List Char) : Bool := isPre pat.reverse s.reverse

/-- `pat` occurs as a contiguous segment of `s`. -/
def occursIn (pat s : List Char) : Prop := ∃ l r, s = l ++ (pat ++ r)

/-- Split `s` around the first (leftmost) occurrence of `pat`, as
JavaScript string search does; `none` when `pat` does not occur. -/
def splitFirst (pat : List Char) : List Char → Option (List Char × List Char)
  | [] => if pat.isEmpty then some ([], []) else none
  | c :: cs =>
    if isPre pat (c :: cs) then some ([], (c :: cs).drop pat.length)
    else
      match splitFirst pat cs with
      | some (pre, post) => some (c :: pre, post)
      | none => none

/-- `GetSubstitution` of ECMA-262 for a string (non-regexp) search: in the
replacement text, `$$` yields `$`, `$&` the matched text (here always
`pat`), a dollar before character 96 (backtick) the part of the subject
before the match, a dollar before character 39 (straight quote) the part
after the match; any other use of `$` is literal (there are no capture
groups for a string search). -/
def expand (pat pre post : List Char) : List Char → List Char
  | [] => []
  | c :: rest =>
    if c = '$' then
      match rest with
      | [] => ['$']
      | d :: rest2 =>
        if d = '$' then '$' :: expand pat pre post rest2
        else if d = '&' then pat ++ expand pat pre post rest2
        else if d = Char.ofNat 96 then pre ++ expand pat pre post rest2
        else if d = Char.ofNat 39 then post ++ expand pat pre post rest2
        else '$' :: d :: expand pat pre post rest2
    else c :: expand pat pre post rest

/-- JavaScript `subject.replace(pat, repl)` with string arguments:
replace the first occurrence of `pat` by the `GetSubstitution` expansion
of `repl`; if `pat` does not occur, return the subject unchanged. -/
def jsReplaceL (s pat repl : List Char) : List Char :=
  match splitFirst pat s with
  | none => s
  | some (pre, post) => pre ++ (expand pat pre post repl ++ post)

/-- `String`-level wrapper of `jsReplaceL`. -/
def jsReplace (s pat repl : String) : String :=
  String.mk (jsReplaceL s.data pat.data repl.data)

/-- Replacement as the specification words it: the first literal
occurrence of the token substring is replaced by the replacement text
inserted verbatim, with no further interpretation. -/
def replaceFirstLiteral (s pat repl : String) : String :=
  String.mk
    (match splitFirst pat.data s.data with
     | none => s.data
     | some (pre, post) => pre ++ (repl.data ++ post))

/-- Code-point lexicographic comparison of strings, `x ≤ y`.  The source
comparator calls `String.prototype.localeCompare`; on the ISO
`YYYY-MM-DD` date strings the content uses (ASCII digits and hyphens),
locale collation coincides with code-point order, which is what we
embed. -/
def leChars : List Char → List Char → Bool
  | [], _ => true
  | _ :: _, [] => false
  | a :: as, b :: bs =>
    if a.toNat < b.toNat then true
    else if b.toNat < a.toNat then false
    else leChars as bs

/-- The date key a post contributes to the sort comparator:
`(p.date || '')` coerced to a string by `localeCompare` — the `date`
field if present and truthy, the empty string otherwise. -/
def effDate (p : Json) : String :=
  match getField p "date" with
  | none => ""
  | some v => if truthy v then jsToString v else ""

/-- Insert a post into an already descending-sorted list, before the
first element whose date key is ≤ its own (the insertion step of a
stable descending sort, matching the stable `Array.prototype.sort` with
comparator `(a, b) => (b.date || '').localeCompare(a.date || '')`). -/
def ordInsert (a : Json) : List Json → List Json
  | [] => [a]
  | b :: l =>
    if leChars (effDate b).data (effDate a).data then a :: b :: l
    else b :: ordInsert a l

/-- The `posts.sort(...)` call of `readPosts`: a stable sort, descending
by the `effDate` key. -/
def sortPosts : List Json → List Json
  | [] => []
  | x :: xs => ordInsert x (sortPosts xs)

/-- `readJSON(filePath, fallback)`: missing file (`none`) or a file whose
contents fail to parse both yield the fallback, silently; a file that
parses yields its value.  The `Except` value models the `JSON.parse`
outcome for the file contents. -/
def readJSON (file : Option (Except String Json)) (fallback : Json) : Json :=
  match file with
  | none => fallback
  | some (Except.ok j) => j
  | some (Except.error _) => fallback

/-- `readPosts()`: given the `content/posts` directory — `none` when the
directory does not exist, otherwise its listing of file names paired with
each file's `JSON.parse` outcome — return the sorted posts together with
the `console.warn` lines emitted for files that failed to parse.
Files not ending in `.json` are filtered out first. -/
def readPosts (dir : Option (List (String × Except String Json))) :
    List Json × List String :=
  match dir with
  | none => ([], [])
  | some files =>
    let jsonFiles := files.filter fun f => endsWithL f.1.data ".json".data
    (sortPosts (jsonFiles.filterMap fun f =>
        match f.2 with
        | Except.ok j => some j
        | Except.error _ => none),
     jsonFiles.filterMap fun f =>
        match f.2 with
        | Except.ok _ => none
        | Except.error e => some ("  ⚠  " ++ f.1 ++ ": " ++ e))

/-- The `/*__POSTS_JSON__*/` placeholder. -/
def postsToken : String := "/*__POSTS_JSON__*/"

/-- The `/*__UNLINKED_JSON__*/` placeholder. -/
def unlinkedToken : String := "/*__UNLINKED_JSON__*/"

/-- The `/*__ABOUT_JSON__*/` placeholder. -/
def aboutToken : String := "/*__ABOUT_JSON__*/"

/-- The `/*__CONTACT_EMAIL__*/` placeholder. -/
def contactToken : String := "/*__CONTACT_EMAIL__*/"

/-- `site.contact_email || ''` as injected for the contact token: the
field's string value when present and truthy, otherwise the empty
string (non-string truthy values would be coerced by `replace`). -/
def contactEmail (site : Json) : String :=
  match getField site "contact_email" with
  | none => ""
  | some v => if truthy v then jsToString v else ""

/-- The input filesystem a build run reads: the prior `dist` directory
contents (`none` when `dist` does not exist), the primary template file,
the `content/posts` directory, the three singleton JSON files (each
`none` when missing, otherwise its `JSON.parse` outcome), the `assets`
tree flattened to relative-path/content pairs, and the `CNAME` file. -/
structure FS where
  dist : Option (List (String × String))
  tpl : Option String
  postsDir : Option (List (String × Except String Json))
  unlinked : Option (Except String Json)
  about : Option (Except String Json)
  site : Option (Except String Json)
  assets : Option (List (String × String))
  cname : Option String

/-- `cleanDir(p)`: remove the directory recursively when it exists, then
recreate it — afterwards it exists and is empty whatever it held
before. -/
def cleanDir (_prior : Option (List (String × String))) :
    Option (List (String × String)) :=
  some []

/-- What `injectData` produces: the transformed template text, the
`console.warn` lines from reading posts, and the `Found N post(s)`
progress line. -/
structure InjectOut where
  html : String
  warnings : List String
  found : String

/-- The default about document `{ en: '', es: '' }`. -/
def aboutDefault : Json :=
  Json.obj (JsonObj.cons "en" (Json.str "")
    (JsonObj.cons "es" (Json.str "") JsonObj.nil))

/-- `injectData(html)`: read the posts, the unlinked comments (default
`[]`), the about document (default `{ en: '', es: '' }`) and the site
config (default `{}`), then chain the four `replace` calls on the
template text. -/
def injectData (fs : FS) (html : String) : InjectOut :=
  let pr := readPosts fs.postsDir
  let unlinked := readJSON fs.unlinked (Json.arr JsonArr.nil)
  let about := readJSON fs.about aboutDefault
  let site := readJSON fs.site (Json.obj JsonObj.nil)
  let out :=
    jsReplace
      (jsReplace
        (jsReplace
          (jsReplace html postsToken (stringify (Json.arr (JsonArr.ofList pr.1))))
          unlinkedToken (stringify unlinked))
        aboutToken (stringify about))
      contactToken (contactEmail site)
  ⟨out, pr.2, "  Found " ++ Nat.repr pr.1.length ++ " post(s)"⟩

/-- The injector as the specification words it: the same data reads and
the same four tokens, but each replacement inserts the serialized text
verbatim (`replaceFirstLiteral`), with no interpretation of the inserted
characters.  Kept for comparison with `injectData`. -/
def injectDataSpec (fs : FS) (html : String) : String :=
  let pr := readPosts fs.postsDir
  let unlinked := readJSON fs.unlinked (Json.arr JsonArr.nil)
  let about := readJSON fs.about aboutDefault
  let site := readJSON fs.site (Json.obj JsonObj.nil)
  replaceFirstLiteral
    (replaceFirstLiteral
      (replaceFirstLiteral
        (replaceFirstLiteral html postsToken
          (stringify (Json.arr (JsonArr.ofList pr.1))))
        unlinkedToken (stringify unlinked))
      aboutToken (stringify about))
    contactToken (contactEmail site)

/-- `((Date.now() - start) / 1000).toFixed(2)`: elapsed milliseconds
rendered as seconds with two decimals (decimal rounding of the float
division approximated at centisecond precision; the line is only ever
logged to the console). -/
def fmtSeconds (ms : Nat) : String :=
  let c := (ms + 5) / 10
  Nat.repr (c / 100) ++ "." ++
    (if c % 100 < 10 then "0" ++ Nat.repr (c % 100) else Nat.repr (c % 100))

/-- The observable outcome of one `build()` run: the process exit code,
the final `dist` directory (path/content pairs; `none` would mean it does
not exist), the `console.warn` lines, and the `console.log`/`console.error`
lines. -/
structure BuildResult where
  exit : Nat
  dist : Option (List (String × String))
  warnings : List String
  log : List String

/-- `build()`: log the banner, clean `dist`, abort with exit code 1 when
`templates/index.html` is missing, otherwise inject the data into the
template, write `dist/index.html`, copy the assets tree verbatim under
`dist/assets/`, copy `CNAME` when present, and log the elapsed-time
summary.  `startTime` and `endTime` are the two `Date.now()` readings. -/
def build (fs : FS) (startTime endTime : Nat) : BuildResult :=
  let dist0 := cleanDir fs.dist
  match fs.tpl with
  | none =>
    { exit := 1
      dist := dist0
      warnings := []
      log := ["works_on_work — build started",
              "  ✗ templates/index.html not found — aborting"] }
  | some tpl =>
    let r := injectData fs tpl
    let assetEntries :=
      match fs.assets with
      | some es => es.map fun e => ("assets/" ++ e.1, e.2)
      | none => []
    let cnameEntries :=
      match fs.cname with
      | some c => [("CNAME", c)]
      | none => []
    { exit := 0
      dist := some ([("index.html", r.html)] ++ assetEntries ++ cnameEntries)
      warnings := r.warnings
      log := ["works_on_work — build started", r.found, "  ✓ index.html"] ++
        (match fs.assets with
         | some _ => ["  ✓ assets/"]
         | none => []) ++
        (match fs.cname with
         | some _ => ["  ✓ CNAME"]
         | none => []) ++
        ["\n━━━ Build complete in " ++ fmtSeconds (endTime - startTime) ++
          "s ━━━\n"] }

/-- The content of `dist/index.html` in a build result, when written. -/
def distIndex (r : BuildResult) : Option String :=
  r.dist.bind fun files => files.lookup "index.html"

/-- `a` may precede `b` in the descending date order: the date key of `b`
is at most the date key of `a`. -/
def dateGe (a b : Json) : Prop :=
  leChars (effDate b).data (effDate a).data = true

/-! Properties of the comparator. -/

theorem leChars_refl : ∀ x, leChars x x = true
  | [] => rfl
  | a :: as => by simp [leChars, Nat.lt_irrefl, leChars_refl as]

theorem leChars_cons (a b : Char) (as bs : List Char) :
    leChars (a :: as) (b :: bs) = true ↔
      a.toNat < b.toNat ∨ (a.toNat = b.toNat ∧ leChars as bs = true) := by
  simp only [leChars]
  by_cases h1 : a.toNat < b.toNat
  · simp [h1]
  · by_cases h2 : b.toNat < a.toNat
    · simp [h1, h2, show a.toNat ≠ b.toNat from by omega]
    · simp [h1, h2, show a.toNat = b.toNat from by omega]

theorem leChars_total : ∀ x y, leChars x y = true ∨ leChars y x = true
  | [], _ => Or.inl rfl
  | _ :: _, [] => Or.inr rfl
  | a :: as, b :: bs => by
    rcases Nat.lt_trichotomy a.toNat b.toNat with h | h | h
    · exact Or.inl (by simp [leChars, h])
    · have ih := leChars_total as bs
      rcases ih with ih | ih
      · exact Or.inl ((leChars_cons a b as bs).mpr (Or.inr ⟨h, ih⟩))
      · exact Or.inr ((leChars_cons b a bs as).mpr (Or.inr ⟨h.symm, ih⟩))
    · exact Or.inr (by simp [leChars, h])

theorem leChars_trans :
    ∀ x y z, leChars x y = true → leChars y z = true → leChars x z = true
  | [], _, _, _, _ => rfl
  | _ :: _, [], _, h1, _ => by simp [leChars] at h1
  | _ :: _, _ :: _, [], _, h2 => by simp [leChars] at h2
  | a :: as, b :: bs, c :: cs, h1, h2 => by
    rw [leChars_cons] at h1 h2 ⊢
    rcases h1 with h1 | ⟨e1, r1⟩
    · rcases h2 with h2 | ⟨e2, r2⟩
      · exact Or.inl (by omega)
      · exact Or.inl (by omega)
    · rcases h2 with h2 | ⟨e2, r2⟩
      · exact Or.inl (by omega)
      · exact Or.inr ⟨by omega, leChars_trans as bs cs r1 r2⟩

/-! Properties of the stable insertion sort. -/

theorem mem_ordInsert (x a : Json) :
    ∀ l, x ∈ ordInsert a l ↔ x = a ∨ x ∈ l
  | [] => by simp [ordInsert]
  | b :: l => by
    by_cases h : leChars (effDate b).data (effDate a).data = true
    · simp [ordInsert, h]
    · simp [ordInsert, h, mem_ordInsert x a l]
      tauto

theorem ordInsert_perm (a : Json) :
    ∀ l, List.Perm (ordInsert a l) (a :: l)
  | [] => List.Perm.refl _
  | b :: l => by
    by_cases h : leChars (effDate b).data (effDate a).data = true
    · simp [ordInsert, h]
    · simp only [ordInsert, h, if_neg, Bool.false_eq_true, not_false_iff]
      exact ((ordInsert_perm a l).cons b).trans (List.Perm.swap a b l)

theorem sortPosts_perm : ∀ l, List.Perm (sortPosts l) l
  | [] => List.Perm.refl _
  | x :: xs =>
    (ordInsert_perm x (sortPosts xs)).trans ((sortPosts_perm xs).cons x)

theorem pairwise_ordInsert (a : Json) :
    ∀ l, List.Pairwise dateGe l → List.Pairwise dateGe (ordInsert a l)
  | [], _ => by simp [ordInsert]
  | b :: l, hp => by
    rcases List.pairwise_cons.mp hp with ⟨hb, hl⟩
    by_cases h : leChars (effDate b).data (effDate a).data = true
    · simp only [ordInsert, if_pos h]
      refine List.Pairwise.cons ?_ hp
      intro y hy
      rcases List.mem_cons.mp hy with rfl | hy
      · exact h
      · exact leChars_trans _ _ _ (hb y hy) h
    · simp only [ordInsert, if_neg h]
      refine List.Pairwise.cons ?_ (pairwise_ordInsert a l hl)
      intro y hy
      rcases (mem_ordInsert y a l).mp hy with rfl | hy
      · rcases leChars_total (effDate b).data (effDate y).data with hc | hc
        · exact absurd hc h
        · exact hc
      · exact hb y hy

theorem sortPosts_pairwise : ∀ l, List.Pairwise dateGe (sortPosts l)
  | [] => List.Pairwise.nil
  | x :: xs => pairwise_ordInsert x (sortPosts xs) (sortPosts_pairwise xs)

theorem filter_ordInsert (a : Json) (d : String) :
    ∀ l, (ordInsert a l).filter (fun p => effDate p == d) =
      if effDate a == d then a :: l.filter (fun p => effDate p == d)
      else l.filter (fun p => effDate p == d)
  | [] => by
    by_cases ha : effDate a == d <;> simp [ordInsert, List.filter, ha]
  | b :: l => by
    by_cases h : leChars (effDate b).data (effDate a).data = true
    · simp only [ordInsert, if_pos h]
      by_cases ha : (effDate a == d) = true <;>
        simp [List.filter_cons, ha]
    · simp only [ordInsert, if_neg h]
      by_cases hb : (effDate b == d) = true
      · have hqa : ¬ ((effDate a == d) = true) := by
          intro hqa
          apply h
          have e1 : effDate a = d := by simpa using hqa
          have e2 : effDate b = d := by simpa using hb
          rw [e1, e2]
          exact leChars_refl _
        simp [List.filter_cons, hb, hqa, filter_ordInsert a d l]
      · by_cases ha : (effDate a == d) = true <;>
          simp [List.filter_cons, hb, ha, filter_ordInsert a d l]

theorem sortPosts_filter (d : String) :
    ∀ l, (sortPosts l).filter (fun p => effDate p == d) =
      l.filter (fun p => effDate p == d)
  | [] => rfl
  | x :: xs => by
    rw [sortPosts, filter_ordInsert, sortPosts_filter d xs]
    by_cases hx : (effDate x == d) = true <;> simp [List.filter_cons, hx]

/-! Properties of first-occurrence replacement. -/

theorem isPre_iff : ∀ pat s : List Char, isPre pat s = true ↔ ∃ r, s = pat ++ r
  | [], s => by simp [isPre]
  | a :: as, [] => by simp [isPre]
  | a :: as, b :: bs => by
    simp only [isPre, Bool.and_eq_true, beq_iff_eq, isPre_iff as bs]
    constructor
    · rintro ⟨rfl, r, rfl⟩
      exact ⟨r, rfl⟩
    · rintro ⟨r, hr⟩
      injection hr with h1 h2
      exact ⟨h1.symm, r, h2⟩

theorem isPre_append_self (pat r : List Char) : isPre pat (pat ++ r) = true :=
  (isPre_iff pat _).mpr ⟨r, rfl⟩

theorem splitFirst_sound :
    ∀ (s pat pre post : List Char), splitFirst pat s = some (pre, post) →
      s = pre ++ (pat ++ post)
  | [], pat, pre, post => by
    simp only [splitFirst]
    split
    · next hp =>
      intro h
      injection h with h
      injection h with h1 h2
      subst h1; subst h2
      simp [List.isEmpty_iff.mp hp]
    · intro h
      exact absurd h (by simp)
  | c :: cs, pat, pre, post => by
    simp only [splitFirst]
    split
    · next hp =>
      intro h
      injection h with h
      injection h with h1 h2
      subst h1; subst h2
      obtain ⟨r, hr⟩ := (isPre_iff pat (c :: cs)).mp hp
      rw [hr, List.drop_left]
      simp
    · next hp =>
      cases hsp : splitFirst pat cs with
      | none => simp [hsp]
      | some pr =>
        rcases pr with ⟨p1, p2⟩
        simp only [hsp]
        intro h
        injection h with h
        injection h with h1 h2
        subst h1; subst h2
        have := splitFirst_sound cs pat p1 p2 hsp
        simp [this]

theorem splitFirst_none (pat s : List Char) (h : ¬ occursIn pat s) :
    splitFirst pat s = none := by
  cases hsp : splitFirst pat s with
  | none => rfl
  | some pr =>
    exact absurd ⟨pr.1, pr.2, splitFirst_sound s pat pr.1 pr.2 (by simpa using hsp)⟩ h

theorem jsReplace_no_occur (s pat repl : String)
    (h : ¬ occursIn pat.data s.data) : jsReplace s pat repl = s := by
  simp [jsReplace, jsReplaceL, splitFirst_none _ _ h]

theorem splitFirst_boundary :
    ∀ (a pat b : List Char),
      (∀ i, i < a.length → ¬ isPre pat ((a ++ (pat ++ b)).drop i) = true) →
      splitFirst pat (a ++ (pat ++ b)) = some (a, b)
  | [], pat, b, _ => by
    rw [List.nil_append]
    cases hs : pat ++ b with
    | nil =>
      obtain ⟨hp, hb⟩ := List.append_eq_nil.mp hs
      subst hp; subst hb
      simp [splitFirst]
    | cons c cs =>
      have hpre : isPre pat (c :: cs) = true := hs ▸ isPre_append_self pat b
      simp only [splitFirst, if_pos hpre]
      rw [← hs, List.drop_left]
  | c :: a2, pat, b, h => by
    have h0 := h 0 (by simp)
    rw [List.drop_zero] at h0
    rw [List.cons_append]
    rw [List.cons_append] at h0
    simp only [splitFirst, if_neg h0]
    rw [splitFirst_boundary a2 pat b fun i hi => by
      have := h (i + 1) (by simpa using Nat.succ_lt_succ hi)
      simpa [List.cons_append] using this]

theorem expand_no_dollar (pat pre post : List Char) :
    ∀ repl, '$' ∉ repl → expand pat pre post repl = repl
  | [], _ => rfl
  | c :: rest, h => by
    have hc : ¬ (c = '$') := by
      rintro rfl
      exact h (List.mem_cons_self _ _)
    have hr : '$' ∉ rest := fun hm => h (List.mem_cons_of_mem _ hm)
    rw [expand.eq_def]
    simp only [if_neg hc]
    rw [expand_no_dollar pat pre post rest hr]

/-- The characters escaping can introduce beyond those of the input. -/
def fixedEscapeChars : List Char := "\\\"nrtbfu0123456789abcdef".data

theorem escapeChar_chars (c x : Char) (hx : x ∈ escapeChar c) :
    x = c ∨ x ∈ fixedEscapeChars := by
  have hhex : ∀ k, k < 16 → Nat.digitChar k ∈ fixedEscapeChars := by decide
  have pair : ∀ u v : Char, u ∈ fixedEscapeChars → v ∈ fixedEscapeChars →
      x ∈ [u, v] → x = c ∨ x ∈ fixedEscapeChars := by
    intro u v hu hv hm
    simp only [List.mem_cons, List.not_mem_nil, or_false] at hm
    rcases hm with rfl | rfl
    · exact Or.inr hu
    · exact Or.inr hv
  unfold escapeChar at hx
  split at hx
  · exact pair _ _ (by decide) (by decide) hx
  · split at hx
    · exact pair _ _ (by decide) (by decide) hx
    · split at hx
      · exact pair _ _ (by decide) (by decide) hx
      · split at hx
        · exact pair _ _ (by decide) (by decide) hx
        · split at hx
          · exact pair _ _ (by decide) (by decide) hx
          · split at hx
            · exact pair _ _ (by decide) (by decide) hx
            · split at hx
              · exact pair _ _ (by decide) (by decide) hx
              · split at hx
                · next hlt =>
                  right
                  simp only [List.mem_cons, List.not_mem_nil, or_false] at hx
                  rcases hx with rfl | rfl | rfl | rfl | rfl | rfl
                  · decide
                  · decide
                  · decide
                  · decide
                  · exact hhex _ (by omega)
                  · exact hhex _ (Nat.mod_lt _ (by omega))
                · left
                  exact List.mem_singleton.mp hx

theorem escapeL_chars (x : Char) :
    ∀ s : List Char, x ∈ escapeL s → x ∈ s ∨ x ∈ fixedEscapeChars
  | [] => by simp [escapeL]
  | c :: cs => by
    intro hx
    rcases List.mem_append.mp hx with hx | hx
    · rcases escapeChar_chars c x hx with rfl | hx2
      · exact Or.inl (List.mem_cons_self _ _)
      · exact Or.inr hx2
    · rcases escapeL_chars x cs hx with hx2 | hx2
      · exact Or.inl (List.mem_cons_of_mem _ hx2)
      · exact Or.inr hx2

theorem not_occursIn_of_missing (pat s : List Char) (c : Char)
    (hc : c ∈ pat) (hs : c ∉ s) : ¬ occursIn pat s := by
  rintro ⟨l, r, rfl⟩
  exact hs (by simp [hc])

/-- Replacing a template that consists of exactly the token inserts the
replacement (dollar-free) on its own. -/
theorem jsReplace_whole (pat repl : String) (h : '$' ∉ repl.data) :
    jsReplace pat pat repl = repl := by
  have hb := splitFirst_boundary [] pat.data [] (by simp)
  rw [List.nil_append, List.append_nil] at hb
  apply String.ext
  simp [jsReplace, jsReplaceL, hb, expand_no_dollar _ _ _ _ h]

/-! ## Claims -/

/-- C1: the sort of `readPosts` orders posts by the `date` field in
descending lexicographic string order (`dateGe` between any earlier and
later element), it permutes the input, posts with equal date keys keep
their relative input order (stability, stated as preservation of every
date-filtered subsequence), and a post whose `date` field is missing or
empty contributes the empty-string key (which, being minimal, sorts to
the end of the descending order). -/
theorem posts_sorted_desc_stable (l : List Json) :
    List.Perm (sortPosts l) l ∧
    List.Pairwise dateGe (sortPosts l) ∧
    (∀ d : String, (sortPosts l).filter (fun p => effDate p == d) =
      l.filter (fun p => effDate p == d)) ∧
    (∀ p : Json, getField p "date" = none → effDate p = "") ∧
    (∀ p : Json, getField p "date" = some (Json.str "") → effDate p = "") :=
  ⟨sortPosts_perm l, sortPosts_pairwise l, fun d => sortPosts_filter d l,
   fun p hp => by simp [effDate, hp],
   fun p hp => by simp [effDate, hp, truthy]⟩

/-- Witness for C1 at concrete inputs: a post with no `date` field and a
post with an empty `date` both get the empty-string key. -/
theorem posts_sorted_desc_stable_witness :
    effDate (Json.obj JsonObj.nil) = "" ∧
    effDate (Json.obj (JsonObj.cons "date" (Json.str "") JsonObj.nil)) = "" :=
  ⟨(posts_sorted_desc_stable []).2.2.2.1 _ rfl,
   (posts_sorted_desc_stable []).2.2.2.2 _ rfl⟩

/-- C3: a token absent from the template leaves the text unchanged (a
no-op, not an error), and when the token does occur, only its first
occurrence is replaced — the text after that occurrence, including any
further copies of the token, is kept verbatim. -/
theorem replace_first_occurrence_only (s pat repl : String) :
    (¬ occursIn pat.data s.data → jsReplace s pat repl = s) ∧
    (∀ a b : String,
      (∀ i, i < a.data.length →
        ¬ isPre pat.data ((a.data ++ (pat.data ++ b.data)).drop i) = true) →
      jsReplace (a ++ pat ++ b) pat repl =
        a ++ (String.mk (expand pat.data a.data b.data repl.data) ++ b)) := by
  constructor
  · exact jsReplace_no_occur s pat repl
  · intro a b h
    have hd : (a ++ pat ++ b).data = a.data ++ (pat.data ++ b.data) := by
      simp [String.data_append, List.append_assoc]
    have hb := splitFirst_boundary a.data pat.data b.data h
    apply String.ext
    simp [jsReplace, jsReplaceL, hd, hb, String.data_append, List.append_assoc]

/-- Witness for C3: the posts token absent is a no-op; with the token
present twice, only the first occurrence is replaced and the duplicate
survives verbatim. -/
theorem replace_first_occurrence_only_witness :
    jsReplace "no tokens here" postsToken "[]" = "no tokens here" ∧
    jsReplace ("A" ++ postsToken ++ ("B" ++ postsToken ++ "C")) postsToken "[]" =
      "A" ++ (String.mk (expand postsToken.data "A".data
        ("B" ++ postsToken ++ "C").data "[]".data) ++ ("B" ++ postsToken ++ "C")) ∧
    jsReplace ("A" ++ postsToken ++ ("B" ++ postsToken ++ "C")) postsToken "[]" =
      "A[]B/*__POSTS_JSON__*/C" :=
  ⟨(replace_first_occurrence_only "no tokens here" postsToken "[]").1
      (not_occursIn_of_missing _ _ '/' (by decide) (by decide)),
   (replace_first_occurrence_only "x" postsToken "[]").2 "A"
      ("B" ++ postsToken ++ "C") (by decide),
   by decide⟩

/-- A filesystem whose only post serializes to a JSON text containing the
JavaScript replacement pattern `$&`. -/
def fsDollar : FS :=
  { dist := none, tpl := some postsToken
    postsDir := some [("p.json", Except.ok (Json.str "$&"))]
    unlinked := none, about := none, site := none, assets := none,
    cname := none }

/-- Counterexample to C2 as stated: on a data bundle whose serialized
JSON contains `$&`, the injector does not insert the serialization
verbatim — `String.replace` expands `$&` to the matched token — so the
output differs from the literal-substitution text the claim describes. -/
theorem inject_not_verbatim :
    (injectData fsDollar postsToken).html = String.mk ("[\n  \"".data ++ (postsToken.data ++ "\"\n]".data)) ∧
    injectDataSpec fsDollar postsToken = "[\n  \"$&\"\n]" ∧
    (injectData fsDollar postsToken).html ≠ injectDataSpec fsDollar postsToken :=
  ⟨by decide, by decide, by decide⟩

/-- C2 (amended): the injector performs first-occurrence substring
replacement in which the inserted text is the `GetSubstitution` expansion
of the serialization; whenever the serialized text contains no `$`
character the expansion is the identity, so the serialization is inserted
verbatim with no further interpretation, as the claim states. -/
theorem replace_verbatim_when_no_dollar (s pat repl : String)
    (h : '$' ∉ repl.data) :
    jsReplace s pat repl = replaceFirstLiteral s pat repl := by
  apply String.ext
  simp only [jsReplace, jsReplaceL, replaceFirstLiteral]
  cases hsp : splitFirst pat.data s.data with
  | none => rfl
  | some pr =>
    rcases pr with ⟨pre, post⟩
    simp [expand_no_dollar _ _ _ _ h]

/-- Witness for the amended C2 at a concrete dollar-free replacement. -/
theorem replace_verbatim_when_no_dollar_witness :
    jsReplace "A/*__ABOUT_JSON__*/B" aboutToken "xyz" =
      replaceFirstLiteral "A/*__ABOUT_JSON__*/B" aboutToken "xyz" :=
  replace_verbatim_when_no_dollar _ _ _ (by decide)

/-- A filesystem with nothing in it, not even a template. -/
def emptyFS : FS :=
  { dist := none, tpl := none, postsDir := none, unlinked := none,
    about := none, site := none, assets := none, cname := none }

/-- C5: when `templates/index.html` is missing the process exits with a
non-zero status and the output directory holds zero files at exit. -/
theorem missing_template_aborts (fs : FS) (t1 t2 : Nat)
    (h : fs.tpl = none) :
    (build fs t1 t2).exit ≠ 0 ∧ (build fs t1 t2).dist = some [] := by
  simp [build, h, cleanDir]

/-- Witness for C5 on the empty filesystem. -/
theorem missing_template_aborts_witness :
    (build emptyFS 0 5).exit ≠ 0 ∧ (build emptyFS 0 5).dist = some [] :=
  missing_template_aborts emptyFS 0 5 rfl

/-- C9: the output directory is cleaned before the template check runs,
so a build aborted for a missing template has already destroyed whatever
the output directory held — for every prior `dist` content `d0`, the
aborted build leaves `dist` existing and empty. -/
theorem clean_destroys_prior_before_check (fs : FS)
    (d0 : Option (List (String × String))) (t1 t2 : Nat)
    (h : fs.tpl = none) :
    (build { fs with dist := d0 } t1 t2).dist = some [] ∧
    (build { fs with dist := d0 } t1 t2).exit = 1 := by
  simp [build, h, cleanDir]

/-- Witness for C9: a prior build artifact in `dist` is gone after the
aborted run. -/
theorem clean_destroys_prior_before_check_witness :
    (build { emptyFS with dist := some [("index.html", "old")] } 0 1).dist =
      some [] ∧
    (build { emptyFS with dist := some [("index.html", "old")] } 0 1).exit = 1 :=
  clean_destroys_prior_before_check emptyFS (some [("index.html", "old")]) 0 1 rfl

/-- C7: the written output of a build depends only on the input
filesystem, never on the run — the two `Date.now()` readings (which feed
the elapsed-time console line) do not influence the output directory, the
exit code or the warnings, so two runs over identical inputs produce
byte-identical output directories. -/
theorem build_deterministic (fs : FS) (t1 t2 t3 t4 : Nat) :
    (build fs t1 t2).dist = (build fs t3 t4).dist ∧
    (build fs t1 t2).exit = (build fs t3 t4).exit ∧
    (build fs t1 t2).warnings = (build fs t3 t4).warnings := by
  cases h : fs.tpl <;> simp [build, h]

/-- C10: when the `content/posts` directory does not exist, `readPosts`
returns the empty sequence with no warning, the build succeeds, and the
posts placeholder receives the empty JSON array `[]`. -/
theorem missing_posts_dir_ok (fs : FS) (t1 t2 : Nat)
    (hp : fs.postsDir = none) (ht : fs.tpl = some postsToken) :
    readPosts none = ([], []) ∧
    (build fs t1 t2).exit = 0 ∧
    (build fs t1 t2).warnings = [] ∧
    stringify (Json.arr (JsonArr.ofList (readPosts fs.postsDir).1)) = "[]" ∧
    distIndex (build fs t1 t2) = some "[]" := by
  have hout : (injectData fs postsToken).html = "[]" := by
    simp only [injectData, hp]
    rw [show jsReplace postsToken postsToken
        (stringify (Json.arr (JsonArr.ofList (readPosts none).1))) = "[]" from
      by decide]
    rw [jsReplace_no_occur "[]" unlinkedToken _
      (not_occursIn_of_missing _ _ 'K' (by decide) (by decide))]
    rw [jsReplace_no_occur "[]" aboutToken _
      (not_occursIn_of_missing _ _ 'B' (by decide) (by decide))]
    exact jsReplace_no_occur "[]" contactToken _
      (not_occursIn_of_missing _ _ 'C' (by decide) (by decide))
  refine ⟨rfl, ?_, ?_, ?_, ?_⟩
  · simp [build, ht]
  · simp [build, ht, injectData, hp, readPosts]
  · rw [hp]; decide
  · simp [build, ht, distIndex, List.lookup, hout]

/-- A filesystem with only a template made of the posts token. -/
def noPostsFS : FS :=
  { dist := none, tpl := some postsToken, postsDir := none,
    unlinked := none, about := none, site := none, assets := none,
    cname := none }

/-- Witness for C10 on a concrete filesystem with no posts directory. -/
theorem missing_posts_dir_ok_witness :
    readPosts none = ([], []) ∧
    (build noPostsFS 0 2).exit = 0 ∧
    (build noPostsFS 0 2).warnings = [] ∧
    stringify (Json.arr (JsonArr.ofList (readPosts noPostsFS.postsDir).1)) = "[]" ∧
    distIndex (build noPostsFS 0 2) = some "[]" :=
  missing_posts_dir_ok noPostsFS 0 2 rfl rfl

/-- C6: every singleton read returns the caller-supplied default both when
the file is missing and when it is malformed, with no warning (the
build's warning channel carries only the per-post warnings); in
particular a missing `content/site.json` yields an empty-string contact
email in the injected output and the build still succeeds. -/
theorem singleton_defaults_silent (fb : Json) (e : String) (fs : FS)
    (t1 t2 : Nat) (htpl : fs.tpl = some contactToken)
    (hsite : fs.site = none) :
    readJSON none fb = fb ∧
    readJSON (some (Except.error e)) fb = fb ∧
    (build fs t1 t2).exit = 0 ∧
    (build fs t1 t2).warnings = (readPosts fs.postsDir).2 ∧
    distIndex (build fs t1 t2) = some "" := by
  have hout : (injectData fs contactToken).html = "" := by
    simp only [injectData, hsite]
    rw [jsReplace_no_occur contactToken postsToken _
      (not_occursIn_of_missing _ _ 'P' (by decide) (by decide))]
    rw [jsReplace_no_occur contactToken unlinkedToken _
      (not_occursIn_of_missing _ _ 'K' (by decide) (by decide))]
    rw [jsReplace_no_occur contactToken aboutToken _
      (not_occursIn_of_missing _ _ 'B' (by decide) (by decide))]
    decide
  refine ⟨rfl, rfl, ?_, ?_, ?_⟩
  · simp [build, htpl]
  · simp [build, htpl, injectData]
  · simp [build, htpl, distIndex, List.lookup, hout]

/-- A filesystem with only a template made of the contact token. -/
def contactFS : FS :=
  { dist := none, tpl := some contactToken, postsDir := none,
    unlinked := none, about := none, site := none, assets := none,
    cname := none }

/-- Witness for C6 on a concrete filesystem with no `site.json`. -/
theorem singleton_defaults_silent_witness :
    readJSON none Json.null = Json.null ∧
    readJSON (some (Except.error "Unexpected end of JSON input")) Json.null =
      Json.null ∧
    (build contactFS 0 3).exit = 0 ∧
    (build contactFS 0 3).warnings = (readPosts contactFS.postsDir).2 ∧
    distIndex (build contactFS 0 3) = some "" :=
  singleton_defaults_silent Json.null "Unexpected end of JSON input"
    contactFS 0 3 rfl rfl

/-- A post file whose contents parsed successfully. -/
def okFile (f : String × Json) : String × Except String Json :=
  (f.1, Except.ok f.2)

/-- C4: a post file whose contents fail to parse is excluded from the
post sequence and produces exactly one warning line carrying its
filename and the parse error, while every well-formed post file is still
loaded (and then sorted). -/
theorem bad_post_excluded_one_warning (g1 g2 : List (String × Json))
    (badName msg : String)
    (h1 : ∀ f ∈ g1, endsWithL f.1.data ".json".data = true)
    (h2 : ∀ f ∈ g2, endsWithL f.1.data ".json".data = true)
    (hb : endsWithL badName.data ".json".data = true) :
    readPosts (some (g1.map okFile ++
        (badName, Except.error msg) :: g2.map okFile)) =
      (sortPosts (g1.map Prod.snd ++ g2.map Prod.snd),
       ["  ⚠  " ++ badName ++ ": " ++ msg]) := by
  have hfil : ∀ (g : List (String × Json)),
      (∀ f ∈ g, endsWithL f.1.data ".json".data = true) →
      (g.map okFile).filter (fun f => endsWithL f.1.data ".json".data) =
        g.map okFile := by
    intro g hg
    apply List.filter_eq_self.mpr
    intro f hf
    obtain ⟨f0, hf0, rfl⟩ := List.mem_map.mp hf
    exact hg f0 hf0
  have hvals : ∀ (g : List (String × Json)),
      (g.map okFile).filterMap (fun f =>
        match f.2 with
        | Except.ok j => some j
        | Except.error _ => none) = g.map Prod.snd := by
    intro g
    induction g with
    | nil => rfl
    | cons f g ih => simp [okFile, List.filterMap_cons, ih]
  have hwarn : ∀ (g : List (String × Json)),
      (g.map okFile).filterMap (fun f =>
        match f.2 with
        | Except.ok _ => none
        | Except.error e => some ("  ⚠  " ++ f.1 ++ ": " ++ e)) = [] := by
    intro g
    induction g with
    | nil => rfl
    | cons f g ih => simp [okFile, List.filterMap_cons, ih]
  simp only [readPosts, List.filter_append, List.filter_cons, hb, if_pos,
    hfil g1 h1, hfil g2 h2, List.filterMap_append, List.filterMap_cons,
    hvals, hwarn, List.nil_append]

/-- Witness for C4: one bad file among five leaves the other four in the
output and exactly one warning referencing the bad filename. -/
theorem bad_post_excluded_one_warning_witness :
    readPosts (some [("a.json", Except.ok (Json.str "pa")),
                     ("b.json", Except.ok (Json.str "pb")),
                     ("bad.json", Except.error "Unexpected token x in JSON"),
                     ("d.json", Except.ok (Json.str "pd")),
                     ("e.json", Except.ok (Json.str "pe"))]) =
      (sortPosts [Json.str "pa", Json.str "pb", Json.str "pd", Json.str "pe"],
       ["  ⚠  bad.json: Unexpected token x in JSON"]) :=
  bad_post_excluded_one_warning
    [("a.json", Json.str "pa"), ("b.json", Json.str "pb")]
    [("d.json", Json.str "pd"), ("e.json", Json.str "pe")]
    "bad.json" "Unexpected token x in JSON"
    (by decide) (by decide) (by decide)

/-- A bilingual text object with an explicit `null` Spanish text, the
claim's example field `{ en: s, es: null }`. -/
def bilingualNull (s : String) : Json :=
  Json.obj (JsonObj.cons "en" (Json.str s)
    (JsonObj.cons "es" Json.null JsonObj.nil))

/-- A post record whose `title` is a bilingual field with an explicit
`null`: `{ id: "p", date: "2026-02-07", title: { en: s, es: null } }`. -/
def postWithNull (s : String) : Json :=
  Json.obj (JsonObj.cons "id" (Json.str "p")
    (JsonObj.cons "date" (Json.str "2026-02-07")
      (JsonObj.cons "title" (bilingualNull s) JsonObj.nil)))

/-- The posts array holding that single post, as sorted and injected at
the posts placeholder. -/
def postsArrNull (s : String) : Json :=
  Json.arr (JsonArr.cons (postWithNull s) JsonArr.nil)

/-- A filesystem whose posts directory holds the one post with the
`null`-bearing bilingual title, and whose template is the posts token. -/
def postNullFS (s : String) : FS :=
  { dist := none, tpl := some postsToken,
    postsDir := some [("p.json", Except.ok (postWithNull s))],
    unlinked := none, about := none, site := none, assets := none,
    cname := none }

/-- The serialized shape of the posts array under
`JSON.stringify(·, null, 2)`, flattened to its concatenation atoms. -/
theorem stringify_postsArrNull (s : String) :
    (stringify (postsArrNull s)).data =
      "[\n".data ++ (jsonGap ++ ("\x7b\n".data ++ (jsonGap ++ (jsonGap ++
        (jsonQuote "id" ++ (": ".data ++ (jsonQuote "p" ++ (",\n".data ++
          (jsonGap ++ (jsonGap ++ (jsonQuote "date" ++ (": ".data ++
            (jsonQuote "2026-02-07" ++ (",\n".data ++ (jsonGap ++ (jsonGap ++
              (jsonQuote "title" ++ (": ".data ++ ("\x7b\n".data ++
                (jsonGap ++ (jsonGap ++ (jsonGap ++ (jsonQuote "en" ++
                  (": ".data ++ (jsonQuote s ++ (",\n".data ++ (jsonGap ++
                    (jsonGap ++ (jsonGap ++ (jsonQuote "es" ++ (": ".data ++
                      ("null".data ++ ("\n".data ++ (jsonGap ++ (jsonGap ++
                        ("\x7d".data ++ ("\n".data ++ (jsonGap ++
                          ("\x7d".data ++ ("\n".data ++
                            "]".data)))))))))))))))))))))))))))))))))))))))) := by
  show stringifyVal [] (postsArrNull s) = _
  simp only [postsArrNull, postWithNull, bilingualNull, stringifyVal,
    arrTail, objTail, List.nil_append, List.append_nil, List.append_assoc]

/-- Every character of the serialized posts array comes from `s`, from
escaping, from the quote character, or from the fixed text of the
serialized document (punctuation, indentation, keys, the `id` and `date`
values, `null`). -/
theorem stringify_postsArrNull_chars (s : String) (t : Char)
    (ht : t ∈ (stringify (postsArrNull s)).data) :
    t ∈ s.data ∨ t ∈ fixedEscapeChars ∨ t = '"' ∨
      t ∈ "[]\x7b\x7d\"\n :,-0267idpatenuls".data := by
  have hcat : ∀ u : List Char, u ⊆ "[]\x7b\x7d\"\n :,-0267idpatenuls".data →
      t ∈ u →
      t ∈ s.data ∨ t ∈ fixedEscapeChars ∨ t = '"' ∨
        t ∈ "[]\x7b\x7d\"\n :,-0267idpatenuls".data :=
    fun _ hu htu => Or.inr (Or.inr (Or.inr (hu htu)))
  rw [stringify_postsArrNull] at ht
  simp only [List.mem_append] at ht
  rcases ht with h|h|h|h|h|h|h|h|h|h|h|h|h|h|h|h|h|h|h|h|h|h|h|h|h|h|h|h|h|h|h|h|h|h|h|h|h|h|h|h|h|h
  all_goals first
    | exact hcat _ (by decide) h
    | (simp only [jsonQuote, List.mem_cons, List.mem_append,
        List.not_mem_nil, or_false] at h
       rcases h with rfl | h | rfl
       · exact Or.inr (Or.inr (Or.inl rfl))
       · rcases escapeL_chars t s.data h with h2 | h2
         · exact Or.inl h2
         · exact Or.inr (Or.inl h2)
       · exact Or.inr (Or.inr (Or.inl rfl)))

/-- The serialized posts array contains no dollar when `s` has none. -/
theorem no_dollar_postsArrNull (s : String) (h : '$' ∉ s.data) :
    '$' ∉ (stringify (postsArrNull s)).data := by
  intro hm
  rcases stringify_postsArrNull_chars s '$' hm with h1 | h1 | h1 | h1
  · exact h h1
  · exact absurd h1 (by decide)
  · exact absurd h1 (by decide)
  · exact absurd h1 (by decide)

/-- The serialized posts array contains no slash when `s` has none. -/
theorem no_slash_postsArrNull (s : String) (h : '/' ∉ s.data) :
    '/' ∉ (stringify (postsArrNull s)).data := by
  intro hm
  rcases stringify_postsArrNull_chars s '/' hm with h1 | h1 | h1 | h1
  · exact h h1
  · exact absurd h1 (by decide)
  · exact absurd h1 (by decide)
  · exact absurd h1 (by decide)

/-- C8: a loaded post whose bilingual `title` carries an explicit `null`
passes through injection unchanged — the written `index.html` is exactly
the serialization of the loaded posts array, and that serialized JSON
contains the member text `"es": null` (the `null` is neither coerced to
an empty string nor omitted).  The hypotheses keep the JavaScript
replacement patterns and the token sentinels out of the user text `s`. -/
theorem null_preserved_in_injection (s : String) (t1 t2 : Nat)
    (h1 : '$' ∉ s.data) (h2 : '/' ∉ s.data) :
    distIndex (build (postNullFS s) t1 t2) =
      some (stringify (postsArrNull s)) ∧
    occursIn "\"es\": null".data (stringify (postsArrNull s)).data := by
  have hposts : stringify (Json.arr (JsonArr.ofList
      (readPosts (some [("p.json", Except.ok (postWithNull s))])).1)) =
      stringify (postsArrNull s) := rfl
  have hout : (injectData (postNullFS s) postsToken).html =
      stringify (postsArrNull s) := by
    simp only [injectData, postNullFS]
    rw [hposts]
    rw [jsReplace_whole postsToken (stringify (postsArrNull s))
      (no_dollar_postsArrNull s h1)]
    rw [jsReplace_no_occur (stringify (postsArrNull s)) unlinkedToken _
      (not_occursIn_of_missing _ _ '/' (by decide)
        (no_slash_postsArrNull s h2))]
    rw [jsReplace_no_occur (stringify (postsArrNull s)) aboutToken _
      (not_occursIn_of_missing _ _ '/' (by decide)
        (no_slash_postsArrNull s h2))]
    exact jsReplace_no_occur (stringify (postsArrNull s)) contactToken _
      (not_occursIn_of_missing _ _ '/' (by decide)
        (no_slash_postsArrNull s h2))
  constructor
  · have e1 : (postNullFS s).tpl = some postsToken := rfl
    have e2 : (postNullFS s).assets = none := rfl
    have e3 : (postNullFS s).cname = none := rfl
    simp only [distIndex, build, e1, e2, e3]
    simp [List.lookup, hout]
  · refine ⟨"[\n".data ++ (jsonGap ++ ("\x7b\n".data ++ (jsonGap ++ (jsonGap ++
      (jsonQuote "id" ++ (": ".data ++ (jsonQuote "p" ++ (",\n".data ++
        (jsonGap ++ (jsonGap ++ (jsonQuote "date" ++ (": ".data ++
          (jsonQuote "2026-02-07" ++ (",\n".data ++ (jsonGap ++ (jsonGap ++
            (jsonQuote "title" ++ (": ".data ++ ("\x7b\n".data ++
              (jsonGap ++ (jsonGap ++ (jsonGap ++ (jsonQuote "en" ++
                (": ".data ++ (jsonQuote s ++ (",\n".data ++ (jsonGap ++
                  (jsonGap ++ jsonGap)))))))))))))))))))))))))))),
      "\n".data ++ (jsonGap ++ (jsonGap ++ ("\x7d".data ++ ("\n".data ++
        (jsonGap ++ ("\x7d".data ++ ("\n".data ++ "]".data))))))), ?_⟩
    rw [stringify_postsArrNull]
    rw [show ("\"es\": null".data : List Char) =
      jsonQuote "es" ++ (": ".data ++ "null".data) from by decide]
    simp [List.append_assoc]

/-- Witness for C8 at the concrete English title text of the claim. -/
theorem null_preserved_in_injection_witness :
    distIndex (build (postNullFS "text") 0 4) =
      some (stringify (postsArrNull "text")) ∧
    occursIn "\"es\": null".data (stringify (postsArrNull "text")).data :=
  null_preserved_in_injection "text" 0 4 (by decide) (by decide)

end WorksOnWork
